import Mathlib

/-!
Verification of the MOT_CEL guardrail and session-tracking layer.

The definitions below are a shallow embedding of `src/guardrails.py`,
`src/yolo_service.py` and `src/websocket_server.py`.  Python floats are
modelled as rationals (`ℚ`), Python dicts as association lists, and the
per-session mutable module state as explicit state values threaded through
the functions.
-/

/-! ## RateLimiter (guardrails.py, class RateLimiter) -/

/-- The prune in `RateLimiter.check`: it first removes entries older than one second:
`requests[:] = [t for t in requests if now - t < 1.0]`. -/
def rlPrune (now : ℚ) (st : List ℚ) : List ℚ :=
  st.filter (fun t => decide (now - t < 1))

/-- The body of `RateLimiter.check(session_id, max_per_second)` acting on the session's
stored timestamp list: prune, then reject when `len(requests) >= max_per_second`,
otherwise append `now` and accept.  Returns `(is_allowed, new stored list)`. -/
def rlCheck (now : ℚ) (limit : ℕ) (st : List ℚ) : Bool × List ℚ :=
  let pruned := rlPrune now st
  if limit ≤ pruned.length then (false, pruned) else (true, pruned ++ [now])

/-- One call of `RateLimiter.check` acting on `(stored list, accepted-call log)`. -/
def rlStep (limit : ℕ) (acc : List ℚ × List ℚ) (now : ℚ) : List ℚ × List ℚ :=
  let r := rlCheck now limit acc.1
  (r.2, if r.1 then acc.2 ++ [now] else acc.2)

/-- A whole sequence of `RateLimiter.check` calls for one session, starting
from the empty window (a fresh `defaultdict(list)` entry).  Returns the final
stored window together with the list of accepted call times. -/
def rlRun (limit : ℕ) (trace : List ℚ) : List ℚ × List ℚ :=
  trace.foldl (rlStep limit) ([], [])

/-- Membership of a timestamp in the trailing 1.0-second window ending at `T`. -/
def inWindow (T t : ℚ) : Bool :=
  decide (T - 1 < t) && decide (t ≤ T)

/-! ## DetectionValidator (guardrails.py, class DetectionValidator)

A raw detection dict is modelled by `RawDet`: `conf = none` models a
present but non-numeric `confidence` value (an absent key defaults to the
numeric `0.0`, i.e. `some 0`); `bbox = none` models a non-list `bbox`
value (an absent key defaults to the empty list `some []`); an entry
`none` inside the bbox list models a value on which `float(...)` raises. -/

structure RawDet where
  conf : Option ℚ
  bbox : Option (List (Option ℚ))
  hasClassId : Bool
  hasClassName : Bool
  hasTrackId : Bool
  classId : Int
  className : String
  trackId : Int
deriving DecidableEq, Repr

/-- A list element of the `detections` argument: either not a dict, or a dict. -/
inductive RawItem where
  | notDict
  | det (d : RawDet)
deriving DecidableEq, Repr

/-- The warnings the validator can append, keyed by the loop index and the
data interpolated into the Python format string. -/
inductive Warn where
  | notDict (i : ℕ)
  | invalidConf (i : ℕ)
  | bboxNotList (i : ℕ)
  | bboxWrongLen (i : ℕ) (n : ℕ)
  | bboxBadCoords (i : ℕ)
  | bboxInverted (i : ℕ)
  | bboxClamped (i : ℕ)
  | bboxTooLarge (i : ℕ)
  | missingFields (i : ℕ)
  | capExceeded (removed : ℕ)
deriving DecidableEq, Repr

/-- The internal per-category rejection counters (logged, never returned). -/
structure VStats where
  lowConfidence : ℕ
  invalidBbox : ℕ
  tooSmall : ℕ
  outOfBounds : ℕ
deriving DecidableEq, Repr

def VStats.zero : VStats := ⟨0, 0, 0, 0⟩

def VStats.add (a b : VStats) : VStats :=
  ⟨a.lowConfidence + b.lowConfidence, a.invalidBbox + b.invalidBbox,
   a.tooSmall + b.tooSmall, a.outOfBounds + b.outOfBounds⟩

/-- Outcome of one iteration of the validation loop: rejected with the
warnings appended so far and counter increments, or accepted with the
validated detection and the warnings appended along the way. -/
inductive StepOut where
  | reject (ws : List Warn) (s : VStats)
  | accept (d : RawDet) (ws : List Warn)
deriving DecidableEq, Repr

/-- The clamp `max(0, min(x, hi))` used in step 4 of `validate_detections`. -/
def clampQ (x hi : ℚ) : ℚ := max 0 (min x hi)

/-- Steps 5–7 of the loop body (area, size-ratio warning, required fields)
applied to the possibly clamped coordinates, with `ws0` the warnings already
appended for this detection. -/
def ratioWarn (h w : ℚ) (i : ℕ) (x1 y1 x2 y2 : ℚ) (ws0 : List Warn) : List Warn :=
  if (if w * h > 0 then (x2 - x1) * (y2 - y1) / (w * h) else 0) > 95/100 then
    ws0 ++ [Warn.bboxTooLarge i]
  else ws0

def stepTail (h w : ℚ) (i : ℕ) (d : RawDet) (c x1 y1 x2 y2 : ℚ)
    (ws0 : List Warn) : StepOut :=
  if (x2 - x1) * (y2 - y1) < 100 then .reject ws0 { VStats.zero with tooSmall := 1 }
  else if d.hasClassId && d.hasClassName && d.hasTrackId then
    .accept { d with conf := some c,
                     bbox := some [some x1, some y1, some x2, some y2] }
      (ratioWarn h w i x1 y1 x2 y2 ws0)
  else .reject (ratioWarn h w i x1 y1 x2 y2 ws0 ++ [Warn.missingFields i]) VStats.zero

/-- Step 4 of the loop body: the two-tier bounds check with 5% clamp
tolerance and 10% rejection band, continuing with `stepTail`. -/
def stepBounds (h w : ℚ) (i : ℕ) (d : RawDet) (c x1 y1 x2 y2 : ℚ) : StepOut :=
  if x1 < -w * (5/100) ∨ y1 < -h * (5/100) ∨
     x2 > w * (1 + 5/100) ∨ y2 > h * (1 + 5/100) then
    if x1 < -w * (1/10) ∨ y1 < -h * (1/10) ∨
       x2 > w * (11/10) ∨ y2 > h * (11/10) then
      .reject [] { VStats.zero with outOfBounds := 1 }
    else
      stepTail h w i d c (clampQ x1 w) (clampQ y1 h) (clampQ x2 w) (clampQ y2 h)
        [Warn.bboxClamped i]
  else
    stepTail h w i d c x1 y1 x2 y2 []

/-- One iteration of the `for i, det in enumerate(detections)` loop of
`DetectionValidator.validate_detections`. -/
def stepValidate (h w : ℚ) (i : ℕ) (item : RawItem) : StepOut :=
  match item with
  | .notDict => .reject [Warn.notDict i] VStats.zero
  | .det d =>
    match d.conf with
    | none => .reject [Warn.invalidConf i] VStats.zero
    | some c =>
      if c < 3/10 then .reject [] { VStats.zero with lowConfidence := 1 }
      else
        match d.bbox with
        | none => .reject [Warn.bboxNotList i] VStats.zero
        | some l =>
          match l with
          | [a, b, a2, b2] =>
            match a, b, a2, b2 with
            | some x1, some y1, some x2, some y2 =>
              if x1 ≥ x2 ∨ y1 ≥ y2 then
                .reject [Warn.bboxInverted i] { VStats.zero with invalidBbox := 1 }
              else stepBounds h w i d c x1 y1 x2 y2
            | _, _, _, _ =>
              .reject [Warn.bboxBadCoords i] { VStats.zero with invalidBbox := 1 }
          | _ =>
            .reject [Warn.bboxWrongLen i l.length] { VStats.zero with invalidBbox := 1 }

/-- The whole validation loop, accumulating kept detections, warnings and
counters in input order, starting at loop index `i`. -/
def processDets (h w : ℚ) : ℕ → List RawItem → List RawDet × List Warn × VStats
  | _, [] => ([], [], VStats.zero)
  | i, item :: rest =>
    let r := processDets h w (i + 1) rest
    match stepValidate h w i item with
    | .reject ws s => (r.1, ws ++ r.2.1, s.add r.2.2)
    | .accept d ws => (d :: r.1, ws ++ r.2.1, r.2.2)

/-- The sort key `x.get("confidence", 0)` of the capping pass. -/
def confOf (d : RawDet) : ℚ := d.conf.getD 0

/-- The function `DetectionValidator.validate_detections(detections, frame_shape)` with
`frame_shape = (h, w)`: run the loop, then cap the kept list at 100 by
stable descending-confidence sort (Python `list.sort` is stable, also with
`reverse=True`), appending one warning with the removed count.  The internal
counters are returned as a third component (Python only logs them). -/
def validate_detections (dets : List RawItem) (h w : ℚ) :
    List RawDet × List Warn × VStats :=
  let r := processDets h w 0 dets
  if 100 < r.1.length then
    let sorted := r.1.mergeSort (fun a b => decide (confOf b ≤ confOf a))
    (sorted.take 100, r.2.1 ++ [Warn.capExceeded (r.1.length - 100)], r.2.2)
  else r

/-- The property claimed by C1: the bbox lies fully within `[0,w] × [0,h]`. -/
def bboxCoords (d : RawDet) : Option (ℚ × ℚ × ℚ × ℚ) :=
  match d.bbox with
  | some [some x1, some y1, some x2, some y2] => some (x1, y1, x2, y2)
  | _ => none

def bboxInFrame (h w : ℚ) (d : RawDet) : Prop :=
  ∃ x1 y1 x2 y2, bboxCoords d = some (x1, y1, x2, y2) ∧
    0 ≤ x1 ∧ 0 ≤ y1 ∧ x2 ≤ w ∧ y2 ≤ h

/-- What the code actually guarantees: the bbox lies within the frame
extended by the 5% clamp tolerance on each side. -/
def bboxInExtendedFrame (h w : ℚ) (d : RawDet) : Prop :=
  ∃ x1 y1 x2 y2, bboxCoords d = some (x1, y1, x2, y2) ∧
    -(w * (5/100)) ≤ x1 ∧ -(h * (5/100)) ≤ y1 ∧
    x2 ≤ w * (1 + 5/100) ∧ y2 ≤ h * (1 + 5/100) ∧ x1 < x2 ∧ y1 < y2

/-- The C1 counterexample input: confidence 1/2, bbox `[-3, 0, 50, 50]`
inside the 5% tolerance of a 100×100 frame, all required fields present. -/
def c1cexDet : RawDet :=
  { conf := some (1/2), bbox := some [some (-3), some 0, some 50, some 50],
    hasClassId := true, hasClassName := true, hasTrackId := true,
    classId := 0, className := "person", trackId := 0 }

/-- Output of the validator on `c1cexDet` (the bbox is kept untouched). -/
def c1cexOut : RawDet :=
  { conf := some (1/2), bbox := some [some (-3), some 0, some 50, some 50],
    hasClassId := true, hasClassName := true, hasTrackId := true,
    classId := 0, className := "person", trackId := 0 }

/-- A plainly valid detection used for the capping witness. -/
def okDet : RawDet :=
  { conf := some (1/2), bbox := some [some 0, some 0, some 50, some 50],
    hasClassId := true, hasClassName := true, hasTrackId := true,
    classId := 0, className := "person", trackId := 0 }

def okOut : RawDet := okDet

/-- A detection whose `confidence` value is present but non-numeric. -/
def c9det : RawDet :=
  { conf := none, bbox := some [some 0, some 0, some 50, some 50],
    hasClassId := true, hasClassName := true, hasTrackId := true,
    classId := 0, className := "person", trackId := 0 }

/-- A detection with numeric confidence below the 0.3 threshold. -/
def c9lowDet : RawDet :=
  { conf := some (1/10), bbox := some [some 0, some 0, some 50, some 50],
    hasClassId := true, hasClassName := true, hasTrackId := true,
    classId := 0, className := "person", trackId := 0 }

/-! ## YOLOTracker (yolo_service.py, class YOLOTracker) -/

structure BBoxQ where
  x1 : ℚ
  y1 : ℚ
  x2 : ℚ
  y2 : ℚ
deriving DecidableEq, Repr

/-- Association-list lookup standing in for Python dict indexing. -/
def lookupA {α β : Type} [DecidableEq α] : List (α × β) → α → Option β
  | [], _ => none
  | p :: rest, k => if p.1 = k then some p.2 else lookupA rest k

/-- Association-list update standing in for `dict[k] = v` (overwrite in
place, or append a new key). -/
def updA {α β : Type} [DecidableEq α] (k : α) (v : β) : List (α × β) → List (α × β)
  | [] => [(k, v)]
  | p :: rest => if p.1 = k then (k, v) :: rest else p :: updA k v rest

/-- Association-list deletion standing in for `del dict[k]`. -/
def removeA {α β : Type} [DecidableEq α] (k : α) : List (α × β) → List (α × β)
  | [] => []
  | p :: rest => if p.1 = k then rest else p :: removeA k rest

/-- The tracker's shared mutable state: `self.trackers` (session → track_id →
last centroid) and `self.track_id_counter`. -/
structure TrackerState where
  trackers : List (String × List (ℕ × ℚ × ℚ))
  counter : ℕ
deriving DecidableEq, Repr

/-- Squared Euclidean distance of a candidate centroid from a stored one.
The source compares `sqrt(d) < 50` and `sqrt(d) < sqrt(m)`; since square
root is strictly monotone these are modelled by the equivalent comparisons
`d < 2500` and `d < m` on the squares. -/
def distSq (cx cy px py : ℚ) : ℚ := (cx - px) ^ 2 + (cy - py) ^ 2

/-- The centroid `((x1+x2)/2, (y1+y2)/2)` of a bbox. -/
def centerOf (b : BBoxQ) : ℚ × ℚ := ((b.x1 + b.x2) / 2, (b.y1 + b.y2) / 2)

/-- The `for track_id, last_pos in trackers[session_id].items()` minimum
scan of `_assign_track_id`; `best = none` stands for `min_distance = inf`
with no match yet. -/
def scanGo (cx cy : ℚ) : Option (ℚ × ℕ) → List (ℕ × ℚ × ℚ) → Option (ℚ × ℕ)
  | best, [] => best
  | none, p :: rest =>
      scanGo cx cy
        (if distSq cx cy p.2.1 p.2.2 < 2500 then
           some (distSq cx cy p.2.1 p.2.2, p.1)
         else none)
        rest
  | some m, p :: rest =>
      scanGo cx cy
        (if distSq cx cy p.2.1 p.2.2 < m.1 ∧ distSq cx cy p.2.1 p.2.2 < 2500 then
           some (distSq cx cy p.2.1 p.2.2, p.1)
         else some m)
        rest

def scanTracks (cx cy : ℚ) (tracks : List (ℕ × ℚ × ℚ)) : Option (ℚ × ℕ) :=
  scanGo cx cy none tracks

/-- The session dict `self.trackers[session_id]`, an empty dict when the session is new. -/
def sessOf (st : TrackerState) (sid : String) : List (ℕ × ℚ × ℚ) :=
  (lookupA st.trackers sid).getD []

/-- The method `YOLOTracker._assign_track_id(session_id, bbox)`: match against the
session's tracks; reuse the matched id (overwriting its centroid) or
allocate the next id from the lifetime counter.  Returns the assigned id
and the new state. -/
def assignTrackId (st : TrackerState) (sid : String) (b : BBoxQ) : ℕ × TrackerState :=
  match scanTracks (centerOf b).1 (centerOf b).2 (sessOf st sid) with
  | some m =>
      (m.2,
       { st with
         trackers := updA sid (updA m.2 (centerOf b) (sessOf st sid)) st.trackers })
  | none =>
      (st.counter,
       { trackers :=
           updA sid (updA st.counter (centerOf b) (sessOf st sid)) st.trackers,
         counter := st.counter + 1 })

/-- Per-frame sequential assignment: the ids in processing order and the
final state (`detect_and_track` calls `_assign_track_id` once per box). -/
def assignFrame (st : TrackerState) (sid : String) : List BBoxQ → List ℕ × TrackerState
  | [] => ([], st)
  | b :: bs =>
      let r := assignTrackId st sid b
      let rest := assignFrame r.2 sid bs
      (r.1 :: rest.1, rest.2)

/-- The history append of `detect_and_track`: append the centroid, then
`pop(0)` once the length exceeds 30. -/
def pushHistory (hist : List (ℚ × ℚ)) (c : ℚ × ℚ) : List (ℚ × ℚ) :=
  if 30 < (hist ++ [c]).length then (hist ++ [c]).tail else hist ++ [c]

/-- Tracker state together with `self.track_history`. -/
structure FullState where
  ts : TrackerState
  history : List (ℕ × List (ℚ × ℚ))
deriving DecidableEq, Repr

/-- One detection inside `detect_and_track`: assign the id, then append the
centroid to that id's global history.  Returns the id that was written. -/
def trackStep (fs : FullState) (sid : String) (b : BBoxQ) : ℕ × FullState :=
  let r := assignTrackId fs.ts sid b
  (r.1,
   { ts := r.2,
     history := updA r.1
       (pushHistory ((lookupA fs.history r.1).getD []) (centerOf b))
       fs.history })

/-- The per-frame loop of `detect_and_track`, logging the
`(session, track_id)` history writes in order. -/
def runFrame (fs : FullState) (sid : String) : List BBoxQ → FullState × List (String × ℕ)
  | [] => (fs, [])
  | b :: bs =>
      let r := trackStep fs sid b
      let rest := runFrame r.2 sid bs
      (rest.1, (sid, r.1) :: rest.2)

/-- A whole sequence of `detect_and_track` calls from arbitrary sessions. -/
def runFrames (fs : FullState) : List (String × List BBoxQ) → FullState × List (String × ℕ)
  | [] => (fs, [])
  | e :: es =>
      let r := runFrame fs e.1 e.2
      let rest := runFrames r.1 es
      (rest.1, r.2 ++ rest.2)

/-- A track id is present in a session's tracker map. -/
def sessIds (st : TrackerState) (sid : String) (tid : ℕ) : Prop :=
  ∃ c, (tid, c) ∈ sessOf st sid

/-- The tracker invariants: every stored id is below the lifetime counter,
and two distinct sessions never hold the same id. -/
def InvT (st : TrackerState) : Prop :=
  (∀ sid tid, sessIds st sid tid → tid < st.counter) ∧
  (∀ s1 s2 tid, s1 ≠ s2 → sessIds st s1 tid → sessIds st s2 tid → False)

/-- The fresh tracker state of `YOLOTracker.__init__`. -/
def initFullState : FullState := ⟨⟨[], 0⟩, []⟩

/-- Concrete order-dependence scenario for C6: session `"s"` holds one
track `0` at the origin; two detections are centred at `(30, 0)` and
`(-30, 0)`, both within 50 px of the origin but 60 px apart. -/
def c6state : TrackerState := ⟨[("s", [(0, (0, 0))])], 1⟩

def c6b1 : BBoxQ := ⟨20, -10, 40, 10⟩

def c6b2 : BBoxQ := ⟨-40, -10, -20, 10⟩

/-! ## WebSocket server (websocket_server.py) -/

inductive FieldVal where
  | str (s : String)
  | num (q : ℚ)
  | dets (l : List RawDet)
deriving DecidableEq, Repr

/-- The dict returned by `VideoStreamHandler.process_frame`, with `none`
standing for an absent key. -/
structure ProcResult where
  detections : Option (List RawDet)
  annotatedFrame : Option String
  timestampQ : Option ℚ
  errDesc : Option String
deriving DecidableEq, Repr

/-- Outcome of the HTTP call to the inference boundary. -/
inductive Boundary where
  | ok (r : ProcResult)
  | httpError (status : ℕ)
  | timeout
  | connError (msg : String)
deriving DecidableEq, Repr

/-- The method `VideoStreamHandler.process_frame`: status 200 passes the body through;
a non-200 status, `asyncio.TimeoutError` and `aiohttp.ClientError` are each
turned into a dict holding only an `error` description. -/
def process_frame : Boundary → ProcResult
  | .ok r => r
  | .httpError s => ⟨none, none, none, some ("Processing error: " ++ toString s)⟩
  | .timeout => ⟨none, none, none, some "Processing timeout"⟩
  | .connError m => ⟨none, none, none, some ("Connection error: " ++ m)⟩

/-- The `detection_result` response dict built in `handle_client`: it copies
`detections`, `annotated_frame` and `timestamp` out of the result (with
defaults) but never copies the result's `error` key. -/
def buildResponse (result : ProcResult) (sid : String) : List (String × FieldVal) :=
  [("type", FieldVal.str "detection_result"),
   ("session_id", FieldVal.str sid),
   ("detections", FieldVal.dets (result.detections.getD [])),
   ("annotated_frame", FieldVal.str (result.annotatedFrame.getD "")),
   ("timestamp", FieldVal.num (result.timestampQ.getD 0))]

/-- The `type == "frame"` branch of the message loop: an empty (falsy)
`data` field sends nothing at all; otherwise the frame is forwarded and one
response is sent. -/
def handleFrameMsg (frameData : String) (sid : String) (b : Boundary) :
    List (List (String × FieldVal)) :=
  if frameData = "" then [] else [buildResponse (process_frame b) sid]

inductive ConnPhase where
  | active
  | closed
deriving DecidableEq, Repr

inductive InEvent where
  | frameMsg (frameData : String) (b : Boundary)
  | pingMsg
  | otherMsg
  | connClosed
deriving DecidableEq, Repr

/-- One step of `handle_client`'s message loop: every exception inside the
loop body is caught and logged, so handling a message never leaves the
ACTIVE phase; only the connection-closed signal does. -/
def connStep (sid : String) :
    ConnPhase → InEvent → ConnPhase × List (List (String × FieldVal))
  | .active, .frameMsg fd b => (.active, handleFrameMsg fd sid b)
  | .active, .pingMsg => (.active, [[("type", FieldVal.str "pong")]])
  | .active, .otherMsg => (.active, [])
  | .active, .connClosed => (.closed, [])
  | .closed, _ => (.closed, [])

/-- A failing boundary interaction: timeout, connection failure, or
non-success status. -/
def boundaryFailed : Boundary → Prop
  | .ok _ => False
  | _ => True

/-- The `VideoStreamHandler` bookkeeping plus the `RateLimiter._requests` module
state, as touched by the disconnect path of `handle_client`. -/
structure ServerState where
  activeConns : List ℕ
  sessionData : List (String × ℕ)
  rateRequests : List (String × List ℚ)
deriving DecidableEq, Repr

/-- The method `VideoStreamHandler.unregister`: discard the websocket from the active
set and delete the session's entry. -/
def unregister (st : ServerState) (ws : ℕ) (sid : String) : ServerState :=
  { st with
    activeConns := st.activeConns.filter (fun x => decide (x ≠ ws)),
    sessionData := removeA sid st.sessionData }

/-- The `finally` block of `handle_client` (the disconnect / unhandled-error
path): it only awaits `unregister`; `RateLimiter.reset_session` is never
invoked anywhere in websocket_server.py. -/
def onDisconnect (st : ServerState) (ws : ℕ) (sid : String) : ServerState :=
  unregister st ws sid

/-- The static method `RateLimiter.reset_session` from guardrails.py (defined there but never
called by the server). -/
def reset_session (reqs : List (String × List ℚ)) (sid : String) :
    List (String × List ℚ) :=
  removeA sid reqs

/-- Concrete server state for the C4 counterexample: one connection for
session `"s"`, whose rate window holds one timestamp. -/
def c4state : ServerState := ⟨[1], [("s", 1)], [("s", [0])]⟩

/-! ## Theorems about RateLimiter -/

theorem length_filter_le_of_imp {α : Type} (l : List α) (p q : α → Bool)
    (h : ∀ x ∈ l, p x = true → q x = true) :
    (l.filter p).length ≤ (l.filter q).length := by
  induction l with
  | nil => simp
  | cons a tl ih =>
    have htl : ∀ x ∈ tl, p x = true → q x = true := fun x hx => h x (List.mem_cons_of_mem a hx)
    by_cases hpa : p a = true
    · have hqa : q a = true := h a (List.mem_cons_self a tl) hpa
      simp [List.filter_cons, hpa, hqa, Nat.succ_le_succ (ih htl)]
    · simp only [List.filter_cons]
      rw [Bool.not_eq_true] at hpa
      rw [hpa]
      rcases hq : q a with _ | _
      · exact ih htl
      · simp only [List.length_cons]
        exact Nat.le_succ_of_le (ih htl)

theorem rlRun_invariant (limit : ℕ) (trace : List ℚ) :
    ∀ (st acc : List ℚ) (tprev : ℚ),
      (∀ t ∈ trace, tprev ≤ t) → trace.Pairwise (· ≤ ·) →
      (∀ t ∈ acc, t ≤ tprev) →
      st = acc.filter (fun t => decide (tprev - 1 < t)) →
      st.length ≤ limit →
      (∀ T, (acc.filter (inWindow T)).length ≤ limit) →
      (trace.foldl (rlStep limit) (st, acc)).1.length ≤ limit ∧
      (∀ T, ((trace.foldl (rlStep limit) (st, acc)).2.filter (inWindow T)).length ≤ limit) := by
  induction trace with
  | nil =>
    intro st acc tprev _ _ _ _ hlen hwin
    exact ⟨hlen, hwin⟩
  | cons now rest ih =>
    intro st acc tprev hlow hpw hacc hst hlen hwin
    have hnow : tprev ≤ now := hlow now (List.mem_cons_self now rest)
    have hrest : ∀ t ∈ rest, now ≤ t := (List.pairwise_cons.mp hpw).1
    have hpwr : rest.Pairwise (· ≤ ·) := (List.pairwise_cons.mp hpw).2
    -- the pruned list is exactly the accepted times newer than `now - 1`
    have hpruned : rlPrune now st = acc.filter (fun t => decide (now - 1 < t)) := by
      rw [hst]
      rw [rlPrune, List.filter_filter]
      apply List.filter_congr
      intro t _
      rcases lt_or_le (now - 1) t with hlt | hle
      · have h1 : now - t < 1 := by linarith
        have h2 : tprev - 1 < t := by linarith
        simp [h1, h2, hlt]
      · have h1 : ¬ (now - t < 1) := by intro hc; linarith
        simp [h1, hle, not_lt.mpr hle]
    have hplen : (rlPrune now st).length ≤ st.length := List.length_filter_le _ _
    simp only [List.foldl_cons]
    by_cases hrej : limit ≤ (rlPrune now st).length
    · -- rejected: state becomes the pruned list, accepted log unchanged
      have hstep : rlStep limit (st, acc) now = (rlPrune now st, acc) := by
        simp [rlStep, rlCheck, hrej]
      rw [hstep]
      apply ih (rlPrune now st) acc now hrest hpwr
      · intro t ht; exact le_trans (hacc t ht) hnow
      · exact hpruned
      · exact le_trans hplen hlen
      · exact hwin
    · -- accepted: `now` is recorded
      push_neg at hrej
      have hstep : rlStep limit (st, acc) now = (rlPrune now st ++ [now], acc ++ [now]) := by
        simp [rlStep, rlCheck, not_le.mpr hrej]
      rw [hstep]
      apply ih (rlPrune now st ++ [now]) (acc ++ [now]) now hrest hpwr
      · intro t ht
        rcases List.mem_append.mp ht with h | h
        · exact le_trans (hacc t h) hnow
        · rw [List.mem_singleton.mp h]
      · rw [List.filter_append, hpruned]
        have : ([now].filter (fun t => decide (now - 1 < t))) = [now] := by
          simp [List.filter_cons, show now - 1 < now by linarith]
        rw [this]
      · rw [List.length_append, List.length_singleton]
        exact Nat.succ_le_of_lt hrej
      · intro T
        rw [List.filter_append]
        by_cases hmem : inWindow T now = true
        · have hTl : T - 1 < now := of_decide_eq_true (Bool.and_elim_left hmem)
          have hTu : now ≤ T := of_decide_eq_true (Bool.and_elim_right hmem)
          have hsub : (acc.filter (inWindow T)).length ≤ (rlPrune now st).length := by
            rw [hpruned]
            apply length_filter_le_of_imp
            intro t _ hpt
            have h1 : T - 1 < t := of_decide_eq_true (Bool.and_elim_left hpt)
            have : now - 1 < t := by linarith
            simpa using this
          have : ([now].filter (inWindow T)) = [now] := by simp [List.filter_cons, hmem]
          rw [this, List.length_append, List.length_singleton]
          exact Nat.succ_le_of_lt (lt_of_le_of_lt hsub hrej)
        · rw [Bool.not_eq_true] at hmem
          have : ([now].filter (inWindow T)) = [] := by
            simp [List.filter_cons, hmem]
          rw [this, List.append_nil]
          exact hwin T

/-- C3: for every session, after every `RateLimiter.check` call (any monotone
call-time trace from a fresh window) the stored window holds at most `limit`
timestamps; the accepted calls in any trailing 1.0-second window never exceed
`limit`; and a rejected call records nothing, leaving exactly the pruned old
window (a sublist of the previous one). -/
theorem rateLimiter_sliding_window (limit : ℕ) (trace : List ℚ)
    (hmono : trace.Pairwise (· ≤ ·)) :
    (rlRun limit trace).1.length ≤ limit ∧
    (∀ T, ((rlRun limit trace).2.filter (inWindow T)).length ≤ limit) ∧
    (∀ now st, (rlCheck now limit st).1 = false →
      (rlCheck now limit st).2 = rlPrune now st ∧ (rlCheck now limit st).2.Sublist st) := by
  refine ⟨?_, ?_, ?_⟩
  · cases trace with
    | nil => simp [rlRun]
    | cons t0 rest =>
      have h := rlRun_invariant limit (t0 :: rest) [] [] t0
        (by
          intro t ht
          rcases List.mem_cons.mp ht with h | h
          · exact le_of_eq h.symm
          · exact (List.pairwise_cons.mp hmono).1 t h)
        hmono (by simp) (by simp) (by simp) (by simp)
      exact h.1
  · cases trace with
    | nil => simp [rlRun]
    | cons t0 rest =>
      have h := rlRun_invariant limit (t0 :: rest) [] [] t0
        (by
          intro t ht
          rcases List.mem_cons.mp ht with h | h
          · exact le_of_eq h.symm
          · exact (List.pairwise_cons.mp hmono).1 t h)
        hmono (by simp) (by simp) (by simp) (by simp)
      exact h.2
  · intro now st hrej
    constructor
    · by_cases hc : limit ≤ (rlPrune now st).length
      · simp [rlCheck, hc]
      · simp [rlCheck, hc] at hrej
    · by_cases hc : limit ≤ (rlPrune now st).length
      · simp only [rlCheck, hc, if_pos]
        exact List.filter_sublist st
      · simp [rlCheck, hc] at hrej

/-- Witness for C3 at a concrete trace. -/
theorem rateLimiter_sliding_window_witness :
    (rlRun 2 [0, 1/2, 3/4]).1.length ≤ 2 ∧
    ((rlRun 2 [0, 1/2, 3/4]).2.filter (inWindow 1)).length ≤ 2 := by
  have h := rateLimiter_sliding_window 2 [0, 1/2, 3/4]
    (by norm_num [List.pairwise_cons])
  exact ⟨h.1, h.2.1 1⟩

/-! ## Theorems about DetectionValidator -/

theorem clampQ_nonneg (x hi : ℚ) : 0 ≤ clampQ x hi := le_max_left 0 _

theorem clampQ_le {hi : ℚ} (x : ℚ) (h0 : 0 ≤ hi) : clampQ x hi ≤ hi :=
  max_le h0 (min_le_right x hi)

theorem clampQ_mono {a b : ℚ} (hi : ℚ) (hab : a ≤ b) : clampQ a hi ≤ clampQ b hi :=
  max_le_max le_rfl (min_le_min hab le_rfl)


theorem stepTail_accept_char {h w : ℚ} {i : ℕ} {d0 : RawDet}
    {c x1 y1 x2 y2 : ℚ} {ws0 : List Warn} {d : RawDet} {ws : List Warn}
    (he : stepTail h w i d0 c x1 y1 x2 y2 ws0 = .accept d ws) :
    d = { d0 with conf := some c,
                  bbox := some [some x1, some y1, some x2, some y2] } ∧
    d0.hasClassId = true ∧ d0.hasClassName = true ∧ d0.hasTrackId = true ∧
    ¬ (x2 - x1) * (y2 - y1) < 100 ∧
    (ws = ws0 ∨ ws = ws0 ++ [Warn.bboxTooLarge i]) := by
  unfold stepTail at he
  by_cases harea : (x2 - x1) * (y2 - y1) < 100
  · rw [if_pos harea] at he
    exact absurd he (by simp)
  · rw [if_neg harea] at he
    by_cases hfields : (d0.hasClassId && d0.hasClassName && d0.hasTrackId) = true
    · rw [if_pos hfields] at he
      simp only [StepOut.accept.injEq] at he
      simp only [Bool.and_eq_true] at hfields
      refine ⟨he.1.symm, hfields.1.1, hfields.1.2, hfields.2, harea, ?_⟩
      unfold ratioWarn at he
      by_cases hr : (if w * h > 0 then (x2 - x1) * (y2 - y1) / (w * h) else 0) > 95/100
      · right; rw [← he.2, if_pos hr]
      · left; rw [← he.2, if_neg hr]
    · rw [if_neg hfields] at he
      exact absurd he (by simp)

theorem stepBounds_accept_char {h w : ℚ} {i : ℕ} {d0 : RawDet}
    {c x1 y1 x2 y2 : ℚ} {d : RawDet} {ws : List Warn}
    (he : stepBounds h w i d0 c x1 y1 x2 y2 = .accept d ws) :
    ∃ u1 v1 u2 v2,
      d = { d0 with conf := some c,
                    bbox := some [some u1, some v1, some u2, some v2] } ∧
      d0.hasClassId = true ∧ d0.hasClassName = true ∧ d0.hasTrackId = true ∧
      ¬ (u2 - u1) * (v2 - v1) < 100 ∧
      ((u1 = x1 ∧ v1 = y1 ∧ u2 = x2 ∧ v2 = y2 ∧
        ¬ (x1 < -w * (5/100) ∨ y1 < -h * (5/100) ∨
           x2 > w * (1 + 5/100) ∨ y2 > h * (1 + 5/100)) ∧
        (ws = [] ∨ ws = [Warn.bboxTooLarge i])) ∨
       (u1 = clampQ x1 w ∧ v1 = clampQ y1 h ∧ u2 = clampQ x2 w ∧ v2 = clampQ y2 h ∧
        (ws = [Warn.bboxClamped i] ∨
         ws = [Warn.bboxClamped i, Warn.bboxTooLarge i]))) := by
  unfold stepBounds at he
  by_cases hout : x1 < -w * (5/100) ∨ y1 < -h * (5/100) ∨
      x2 > w * (1 + 5/100) ∨ y2 > h * (1 + 5/100)
  · rw [if_pos hout] at he
    by_cases hfar : x1 < -w * (1/10) ∨ y1 < -h * (1/10) ∨
        x2 > w * (11/10) ∨ y2 > h * (11/10)
    · rw [if_pos hfar] at he
      exact absurd he (by simp)
    · rw [if_neg hfar] at he
      obtain ⟨hd, h1, h2, h3, harea, hws⟩ := stepTail_accept_char he
      exact ⟨clampQ x1 w, clampQ y1 h, clampQ x2 w, clampQ y2 h, hd, h1, h2, h3, harea,
        Or.inr ⟨rfl, rfl, rfl, rfl, by simpa using hws⟩⟩
  · rw [if_neg hout] at he
    obtain ⟨hd, h1, h2, h3, harea, hws⟩ := stepTail_accept_char he
    exact ⟨x1, y1, x2, y2, hd, h1, h2, h3, harea,
      Or.inl ⟨rfl, rfl, rfl, rfl, hout, by simpa using hws⟩⟩

theorem stepValidate_accept_char {h w : ℚ} {i : ℕ} {item : RawItem}
    {d : RawDet} {ws : List Warn}
    (he : stepValidate h w i item = .accept d ws) :
    ∃ d0 c x1 y1 x2 y2, item = .det d0 ∧ d0.conf = some c ∧ ¬ c < 3/10 ∧
      d0.bbox = some [some x1, some y1, some x2, some y2] ∧
      x1 < x2 ∧ y1 < y2 ∧
      stepBounds h w i d0 c x1 y1 x2 y2 = .accept d ws := by
  cases item with
  | notDict => simp [stepValidate] at he
  | det d0 =>
    cases hconf : d0.conf with
    | none => simp [stepValidate, hconf] at he
    | some c =>
      by_cases hclow : c < 3/10
      · simp [stepValidate, hconf, hclow] at he
      · cases hbb : d0.bbox with
        | none => simp [stepValidate, hconf, hclow, hbb] at he
        | some l =>
          rcases l with _ | ⟨a, _ | ⟨b, _ | ⟨a2, _ | ⟨b2, _ | ⟨e, tl⟩⟩⟩⟩⟩
          · simp [stepValidate, hconf, hclow, hbb] at he
          · simp [stepValidate, hconf, hclow, hbb] at he
          · simp [stepValidate, hconf, hclow, hbb] at he
          · simp [stepValidate, hconf, hclow, hbb] at he
          · rcases a with _ | x1
            · simp [stepValidate, hconf, hclow, hbb] at he
            · rcases b with _ | y1
              · simp [stepValidate, hconf, hclow, hbb] at he
              · rcases a2 with _ | x2
                · simp [stepValidate, hconf, hclow, hbb] at he
                · rcases b2 with _ | y2
                  · simp [stepValidate, hconf, hclow, hbb] at he
                  · by_cases hinv : x1 ≥ x2 ∨ y1 ≥ y2
                    · simp [stepValidate, hconf, hclow, hbb, hinv] at he
                    · have he' : stepBounds h w i d0 c x1 y1 x2 y2 = .accept d ws := by
                        simpa [stepValidate, hconf, hclow, hbb, hinv] using he
                      push_neg at hinv
                      exact ⟨d0, c, x1, y1, x2, y2, rfl, hconf, hclow, hbb,
                        hinv.1, hinv.2, he'⟩
          · simp [stepValidate, hconf, hclow, hbb] at he

theorem pos_of_area {a b : ℚ} (ha : 0 ≤ a) (hb : 0 ≤ b) (hab : 100 ≤ a * b) :
    0 < a ∧ 0 < b := by
  constructor <;> nlinarith

theorem stepValidate_accept_extended {h w : ℚ} (hh : 0 ≤ h) (hw : 0 ≤ w)
    {i : ℕ} {item : RawItem} {d : RawDet} {ws : List Warn}
    (he : stepValidate h w i item = .accept d ws) :
    bboxInExtendedFrame h w d := by
  obtain ⟨d0, c, x1, y1, x2, y2, _, _, _, _, hx12, hy12, hb⟩ :=
    stepValidate_accept_char he
  obtain ⟨u1, v1, u2, v2, hd, _, _, _, harea, hcase⟩ := stepBounds_accept_char hb
  have hcoords : bboxCoords d = some (u1, v1, u2, v2) := by rw [hd]; rfl
  rcases hcase with ⟨hu1, hv1, hu2, hv2, hout, _⟩ | ⟨hu1, hv1, hu2, hv2, _⟩
  · subst hu1; subst hv1; subst hu2; subst hv2
    push_neg at hout
    exact ⟨u1, v1, u2, v2, hcoords, by linarith [hout.1], by linarith [hout.2.1],
      by linarith [hout.2.2.1], by linarith [hout.2.2.2], hx12, hy12⟩
  · have hle1 : u1 ≤ u2 := by
      rw [hu1, hu2]; exact clampQ_mono w (le_of_lt hx12)
    have hle2 : v1 ≤ v2 := by
      rw [hv1, hv2]; exact clampQ_mono h (le_of_lt hy12)
    have hpos := pos_of_area (by linarith) (by linarith) (not_lt.mp harea)
    refine ⟨u1, v1, u2, v2, hcoords, ?_, ?_, ?_, ?_, by linarith [hpos.1], by linarith [hpos.2]⟩
    · rw [hu1]; nlinarith [clampQ_nonneg x1 w]
    · rw [hv1]; nlinarith [clampQ_nonneg y1 h]
    · rw [hu2]; nlinarith [clampQ_le x2 hw]
    · rw [hv2]; nlinarith [clampQ_le y2 hh]

theorem mem_processDets {h w : ℚ} {d : RawDet} :
    ∀ (items : List RawItem) (i : ℕ), d ∈ (processDets h w i items).1 →
      ∃ j item ws, stepValidate h w j item = StepOut.accept d ws := by
  intro items
  induction items with
  | nil => intro i hd; simp [processDets] at hd
  | cons item rest ih =>
    intro i hd
    cases hstep : stepValidate h w i item with
    | reject ws s =>
      simp only [processDets, hstep] at hd
      exact ih (i + 1) hd
    | accept d0 ws =>
      simp only [processDets, hstep, List.mem_cons] at hd
      rcases hd with hd | hd
      · exact ⟨i, item, ws, by rw [hstep, hd]⟩
      · exact ih (i + 1) hd

theorem mem_processDets_of_mem_validate {dets : List RawItem} {h w : ℚ} {d : RawDet}
    (hd : d ∈ (validate_detections dets h w).1) :
    d ∈ (processDets h w 0 dets).1 := by
  by_cases hcap : 100 < (processDets h w 0 dets).1.length
  · simp only [validate_detections, hcap, if_true] at hd
    exact List.mem_mergeSort.mp ((List.take_sublist _ _).subset hd)
  · simpa only [validate_detections, hcap, if_false] using hd

theorem validate_detections_len_le (dets : List RawItem) (h w : ℚ) :
    (validate_detections dets h w).1.length ≤ 100 := by
  by_cases hcap : 100 < (processDets h w 0 dets).1.length
  · simp only [validate_detections, hcap, if_true]
    exact List.length_take_le 100 _
  · simp only [validate_detections, hcap, if_false]
    exact le_of_not_lt hcap

/-- C1 (amended): every detection kept by `validate_detections` has its bbox
inside the frame extended by the 5% inner tolerance on every side,
`[-0.05w, 1.05w] × [-0.05h, 1.05h]`, with ordered coordinates.  (The claim's
stronger `[0,w]×[0,h]` containment is refuted by
`detectionFilter_frame_claim_false`: coordinates within the inner 5% band are
kept without clamping.) -/
theorem detectionFilter_extended_envelope (dets : List RawItem) (h w : ℚ)
    (hh : 0 ≤ h) (hw : 0 ≤ w) :
    ∀ d ∈ (validate_detections dets h w).1, bboxInExtendedFrame h w d := by
  intro d hd
  obtain ⟨j, item, ws, hacc⟩ :=
    mem_processDets dets 0 (mem_processDets_of_mem_validate hd)
  exact stepValidate_accept_extended hh hw hacc

/-- C1 counterexample: on a 100×100 frame, the detection with bbox
`[-3, 0, 50, 50]` (3 px outside the frame, within the 5% inner tolerance)
is kept *without* being clamped, so the kept list is not contained in
`[0,w]×[0,h]`. -/
theorem detectionFilter_frame_claim_false :
    ¬ (∀ d ∈ (validate_detections [RawItem.det c1cexDet] 100 100).1,
        bboxInFrame 100 100 d) := by
  intro hall
  have hk : (validate_detections [RawItem.det c1cexDet] 100 100).1 = [c1cexOut] := by
    norm_num [validate_detections, processDets, stepValidate, stepBounds, stepTail,
      ratioWarn, c1cexDet, c1cexOut]
  rw [hk] at hall
  obtain ⟨x1, y1, x2, y2, hco, hx1, _⟩ := hall c1cexOut (List.mem_singleton.mpr rfl)
  have hcov : bboxCoords c1cexOut = some (-3, 0, 50, 50) := rfl
  rw [hcov] at hco
  simp only [Option.some.injEq, Prod.mk.injEq] at hco
  rw [← hco.1] at hx1
  norm_num at hx1

/-- Witness for C1's amended theorem at the concrete counterexample input. -/
theorem detectionFilter_extended_envelope_witness :
    bboxInExtendedFrame 100 100 c1cexOut := by
  apply detectionFilter_extended_envelope [RawItem.det c1cexDet] 100 100
    (by norm_num) (by norm_num)
  norm_num [validate_detections, processDets, stepValidate, stepBounds, stepTail,
    ratioWarn, c1cexDet, c1cexOut]

theorem confRel_trans : ∀ (a b c : RawDet),
    decide (confOf b ≤ confOf a) = true → decide (confOf c ≤ confOf b) = true →
    decide (confOf c ≤ confOf a) = true := by
  intro a b c hab hbc
  rw [decide_eq_true_iff] at *
  exact le_trans hbc hab

theorem confRel_total : ∀ (a b : RawDet),
    (decide (confOf b ≤ confOf a) || decide (confOf a ≤ confOf b)) = true := by
  intro a b
  rcases le_total (confOf b) (confOf a) with hle | hle <;> simp [hle]

/-- C5: whenever the validation loop keeps more than 100 detections,
`validate_detections` returns exactly 100 of them, appends exactly one
warning naming the removed count, and the returned list is the 100-prefix
of a stable descending-confidence reordering of the kept list: together
with the dropped suffix it is a permutation of the kept list, sorted by
descending confidence, in which every pair that was already in descending
order (in particular every tie) keeps its original relative order. -/
theorem detectionFilter_cap_100 (dets : List RawItem) (h w : ℚ)
    (hcap : 100 < (processDets h w 0 dets).1.length) :
    (validate_detections dets h w).1.length = 100 ∧
    (validate_detections dets h w).2.1 =
      (processDets h w 0 dets).2.1 ++
        [Warn.capExceeded ((processDets h w 0 dets).1.length - 100)] ∧
    ∃ dropped : List RawDet,
      dropped.length = (processDets h w 0 dets).1.length - 100 ∧
      ((validate_detections dets h w).1 ++ dropped).Perm (processDets h w 0 dets).1 ∧
      ((validate_detections dets h w).1 ++ dropped).Pairwise
        (fun a b => confOf b ≤ confOf a) ∧
      (∀ a b : RawDet, [a, b].Sublist (processDets h w 0 dets).1 →
        confOf b ≤ confOf a →
        [a, b].Sublist ((validate_detections dets h w).1 ++ dropped)) := by
  have hv1 : (validate_detections dets h w).1 =
      ((processDets h w 0 dets).1.mergeSort
        (fun a b => decide (confOf b ≤ confOf a))).take 100 := by
    simp only [validate_detections, hcap, if_true]
  have hv2 : (validate_detections dets h w).2.1 =
      (processDets h w 0 dets).2.1 ++
        [Warn.capExceeded ((processDets h w 0 dets).1.length - 100)] := by
    simp only [validate_detections, hcap, if_true]
  have hlen : ((processDets h w 0 dets).1.mergeSort
      (fun a b => decide (confOf b ≤ confOf a))).length =
      (processDets h w 0 dets).1.length := List.length_mergeSort _
  have htd : (validate_detections dets h w).1 ++
      ((processDets h w 0 dets).1.mergeSort
        (fun a b => decide (confOf b ≤ confOf a))).drop 100 =
      (processDets h w 0 dets).1.mergeSort
        (fun a b => decide (confOf b ≤ confOf a)) := by
    rw [hv1]; exact List.take_append_drop 100 _
  refine ⟨?_, hv2,
    ((processDets h w 0 dets).1.mergeSort
      (fun a b => decide (confOf b ≤ confOf a))).drop 100, ?_, ?_, ?_, ?_⟩
  · rw [hv1, List.length_take, hlen]
    omega
  · rw [List.length_drop, hlen]
  · rw [htd]
    exact List.mergeSort_perm _ _
  · rw [htd]
    exact (List.sorted_mergeSort confRel_trans confRel_total _).imp
      (fun hab => of_decide_eq_true hab)
  · intro a b hsub hle
    rw [htd]
    exact List.pair_sublist_mergeSort confRel_trans confRel_total
      (decide_eq_true hle) hsub

theorem stepValidate_okDet (i : ℕ) :
    stepValidate 100 100 i (RawItem.det okDet) = StepOut.accept okOut [] := by
  norm_num [stepValidate, stepBounds, stepTail, ratioWarn, okDet, okOut]

theorem processDets_replicate (n : ℕ) : ∀ (i : ℕ),
    processDets 100 100 i (List.replicate n (RawItem.det okDet)) =
      (List.replicate n okOut, [], VStats.zero) := by
  induction n with
  | zero => intro i; simp [processDets]
  | succ m ih =>
    intro i
    rw [List.replicate_succ]
    simp only [processDets, stepValidate_okDet i, ih (i + 1)]
    simp [List.replicate_succ]

/-- Witness for C5 at 101 copies of a valid detection. -/
theorem detectionFilter_cap_100_witness :
    (validate_detections (List.replicate 101 (RawItem.det okDet)) 100 100).1.length
      = 100 :=
  (detectionFilter_cap_100 (List.replicate 101 (RawItem.det okDet)) 100 100
    (by rw [processDets_replicate 101 0]; simp)).1

/-- C9 counterexample: a detection with a present but non-numeric
`confidence` value *does* get a warning entry (and increments no internal
counter), contradicting the claim that it is rejected silently and counted
only. -/
theorem detectionFilter_nonNumeric_conf_warns :
    (validate_detections [RawItem.det c9det] 100 100).2.1 = [Warn.invalidConf 0] ∧
    (validate_detections [RawItem.det c9det] 100 100).2.1 ≠ [] ∧
    (validate_detections [RawItem.det c9det] 100 100).2.2 = VStats.zero := by
  refine ⟨?_, ?_, ?_⟩ <;>
    simp [validate_detections, processDets, stepValidate, c9det, VStats.add, VStats.zero]

/-- C9 (amended): a non-numeric confidence yields a warning entry and no
counter increment; a numeric confidence below 0.3 is rejected silently,
contributing only to the internal low-confidence counter with no warning. -/
theorem detectionFilter_confidence_paths (d : RawDet) (h w : ℚ) :
    (d.conf = none →
      validate_detections [RawItem.det d] h w =
        ([], [Warn.invalidConf 0], VStats.zero)) ∧
    (∀ c, d.conf = some c → c < 3/10 →
      validate_detections [RawItem.det d] h w =
        ([], [], { VStats.zero with lowConfidence := 1 })) := by
  constructor
  · intro hconf
    simp [validate_detections, processDets, stepValidate, hconf, VStats.add, VStats.zero]
  · intro c hconf hc
    simp [validate_detections, processDets, stepValidate, hconf, hc, VStats.add, VStats.zero]

/-- Witness for C9's amended theorem at concrete detections. -/
theorem detectionFilter_confidence_paths_witness :
    validate_detections [RawItem.det c9det] 100 100 =
      ([], [Warn.invalidConf 0], VStats.zero) ∧
    validate_detections [RawItem.det c9lowDet] 100 100 =
      ([], [], { VStats.zero with lowConfidence := 1 }) :=
  ⟨(detectionFilter_confidence_paths c9det 100 100).1 rfl,
   (detectionFilter_confidence_paths c9lowDet 100 100).2 (1/10) rfl (by norm_num)⟩

theorem validate_detections_of_le (dets : List RawItem) (h w : ℚ)
    (hle : ¬ 100 < (processDets h w 0 dets).1.length) :
    validate_detections dets h w = processDets h w 0 dets := by
  simp only [validate_detections, hle, if_false]

theorem rawDet_update_self {d : RawDet} {c : ℚ} {L : List (Option ℚ)}
    (hc : d.conf = some c) (hb : d.bbox = some L) :
    { d with conf := some c, bbox := some L } = d := by
  cases d
  simp_all

theorem stepValidate_reaccept {h w : ℚ} (hh : 0 ≤ h) (hw : 0 ≤ w)
    {i : ℕ} {item : RawItem} {d : RawDet} {ws : List Warn}
    (he : stepValidate h w i item = .accept d ws) (j : ℕ) :
    ∃ ws', stepValidate h w j (RawItem.det d) = .accept d ws' ∧
      (ws' = [] ∨ ws' = [Warn.bboxTooLarge j]) := by
  obtain ⟨d0, c, x1, y1, x2, y2, _, hconf0, hclow, hbb0, hx12, hy12, hb⟩ :=
    stepValidate_accept_char he
  obtain ⟨u1, v1, u2, v2, hd, hf1, hf2, hf3, harea, hcase⟩ := stepBounds_accept_char hb
  have hdconf : d.conf = some c := by rw [hd]
  have hdbb : d.bbox = some [some u1, some v1, some u2, some v2] := by rw [hd]
  have hbounds : ¬ (u1 < -w * (5/100) ∨ v1 < -h * (5/100) ∨
      u2 > w * (1 + 5/100) ∨ v2 > h * (1 + 5/100)) := by
    rcases hcase with ⟨e1, e2, e3, e4, hout, _⟩ | ⟨e1, e2, e3, e4, _⟩
    · subst e1; subst e2; subst e3; subst e4; exact hout
    · push_neg
      subst e1; subst e2; subst e3; subst e4
      refine ⟨?_, ?_, ?_, ?_⟩
      · nlinarith [clampQ_nonneg x1 w]
      · nlinarith [clampQ_nonneg y1 h]
      · nlinarith [clampQ_le x2 hw]
      · nlinarith [clampQ_le y2 hh]
  have hstrict : u1 < u2 ∧ v1 < v2 := by
    rcases hcase with ⟨e1, e2, e3, e4, _, _⟩ | ⟨e1, e2, e3, e4, _⟩
    · subst e1; subst e2; subst e3; subst e4; exact ⟨hx12, hy12⟩
    · have hle1 : u1 ≤ u2 := by
        rw [e1, e3]; exact clampQ_mono w (le_of_lt hx12)
      have hle2 : v1 ≤ v2 := by
        rw [e2, e4]; exact clampQ_mono h (le_of_lt hy12)
      have hpos := pos_of_area (by linarith) (by linarith) (not_lt.mp harea)
      exact ⟨by linarith [hpos.1], by linarith [hpos.2]⟩
  have hinv : ¬ (u1 ≥ u2 ∨ v1 ≥ v2) := by
    push_neg
    exact hstrict
  have hfields : (d.hasClassId && d.hasClassName && d.hasTrackId) = true := by
    rw [hd]
    simp [hf1, hf2, hf3]
  refine ⟨ratioWarn h w j u1 v1 u2 v2 [], ?_, ?_⟩
  · simp only [stepValidate, hdconf, hdbb]
    rw [if_neg hclow, if_neg hinv]
    unfold stepBounds
    rw [if_neg hbounds]
    unfold stepTail
    rw [if_neg harea, if_pos hfields, rawDet_update_self hdconf hdbb]
  · unfold ratioWarn
    by_cases hr : (if w * h > 0 then (u2 - u1) * (v2 - v1) / (w * h) else 0) > 95/100
    · right; rw [if_pos hr]; rfl
    · left; rw [if_neg hr]

theorem processDets_reaccept {h w : ℚ} (hh : 0 ≤ h) (hw : 0 ≤ w) :
    ∀ (ds : List RawDet) (i : ℕ),
      (∀ d ∈ ds, ∃ i0 item0 ws0, stepValidate h w i0 item0 = StepOut.accept d ws0) →
      (processDets h w i (ds.map RawItem.det)).1 = ds ∧
      (processDets h w i (ds.map RawItem.det)).2.2 = VStats.zero ∧
      (∀ k, Warn.bboxClamped k ∉ (processDets h w i (ds.map RawItem.det)).2.1) := by
  intro ds
  induction ds with
  | nil => intro i _; simp [processDets]
  | cons d tl ih =>
    intro i hall
    obtain ⟨i0, item0, ws0, hacc⟩ := hall d (List.mem_cons_self d tl)
    obtain ⟨ws', hstep, hws'⟩ := stepValidate_reaccept hh hw hacc i
    obtain ⟨ih1, ih2, ih3⟩ := ih (i + 1)
      (fun d' hd' => hall d' (List.mem_cons_of_mem d hd'))
    refine ⟨?_, ?_, ?_⟩
    · simp only [List.map_cons, processDets, hstep, ih1]
    · simp only [List.map_cons, processDets, hstep, ih2]
    · intro k
      simp only [List.map_cons, processDets, hstep, List.mem_append]
      rintro (hmem | hmem)
      · rcases hws' with hws' | hws' <;> rw [hws'] at hmem <;> simp at hmem
      · exact ih3 k hmem

/-- C7: sanitization is idempotent — re-running `validate_detections` on its
own accepted output (wrapped back into detection items) against the same
frame shape accepts every detection again unchanged, with no rejection
counter ticks and no re-clamping warning. -/
theorem detectionFilter_idempotent (dets : List RawItem) (h w : ℚ)
    (hh : 0 ≤ h) (hw : 0 ≤ w) :
    (validate_detections ((validate_detections dets h w).1.map RawItem.det) h w).1
      = (validate_detections dets h w).1 ∧
    (validate_detections ((validate_detections dets h w).1.map RawItem.det) h w).2.2
      = VStats.zero ∧
    ∀ k, Warn.bboxClamped k ∉
      (validate_detections ((validate_detections dets h w).1.map RawItem.det) h w).2.1 := by
  have hall : ∀ d ∈ (validate_detections dets h w).1,
      ∃ i0 item0 ws0, stepValidate h w i0 item0 = StepOut.accept d ws0 := by
    intro d hd
    exact mem_processDets dets 0 (mem_processDets_of_mem_validate hd)
  obtain ⟨hp1, hp2, hp3⟩ :=
    processDets_reaccept hh hw (validate_detections dets h w).1 0 hall
  have hnocap : ¬ 100 <
      (processDets h w 0 ((validate_detections dets h w).1.map RawItem.det)).1.length := by
    rw [hp1]
    exact not_lt.mpr (validate_detections_len_le dets h w)
  rw [validate_detections_of_le ((validate_detections dets h w).1.map RawItem.det) h w hnocap]
  exact ⟨hp1, hp2, hp3⟩

/-- Witness for C7 at the concrete C1 input. -/
theorem detectionFilter_idempotent_witness :
    (validate_detections
        ((validate_detections [RawItem.det c1cexDet] 100 100).1.map RawItem.det)
        100 100).1
      = (validate_detections [RawItem.det c1cexDet] 100 100).1 ∧
    (validate_detections
        ((validate_detections [RawItem.det c1cexDet] 100 100).1.map RawItem.det)
        100 100).2.2 = VStats.zero :=
  ⟨(detectionFilter_idempotent [RawItem.det c1cexDet] 100 100
      (by norm_num) (by norm_num)).1,
   (detectionFilter_idempotent [RawItem.det c1cexDet] 100 100
      (by norm_num) (by norm_num)).2.1⟩

/-! ## Theorems about YOLOTracker -/

theorem pushHistory_le (hist : List (ℚ × ℚ)) (c : ℚ × ℚ)
    (hlen : hist.length ≤ 30) : (pushHistory hist c).length ≤ 30 := by
  unfold pushHistory
  by_cases h30 : 30 < (hist ++ [c]).length
  · rw [if_pos h30]
    simp only [List.length_tail, List.length_append, List.length_singleton]
    omega
  · rw [if_neg h30]
    omega

theorem foldl_pushHistory_le :
    ∀ (cs : List (ℚ × ℚ)) (hist : List (ℚ × ℚ)), hist.length ≤ 30 →
      (cs.foldl pushHistory hist).length ≤ 30 := by
  intro cs
  induction cs with
  | nil => intro hist hlen; simpa
  | cons c rest ih =>
    intro hist hlen
    rw [List.foldl_cons]
    exact ih _ (pushHistory_le hist c hlen)

/-- C8: starting from any history of at most 30 entries (in particular the
empty one), any number of centroid updates leaves the track history at most
30 entries long; and appending to a full history of exactly 30 entries
evicts precisely the oldest entry (FIFO). -/
theorem trackHistory_bounded (hist : List (ℚ × ℚ)) (cs : List (ℚ × ℚ))
    (hlen : hist.length ≤ 30) :
    (cs.foldl pushHistory hist).length ≤ 30 ∧
    (hist.length = 30 → ∀ c, pushHistory hist c = hist.tail ++ [c]) := by
  refine ⟨foldl_pushHistory_le cs hist hlen, ?_⟩
  intro h30 c
  unfold pushHistory
  rw [if_pos (by simp [h30])]
  cases hist with
  | nil => simp at h30
  | cons a tl => simp

/-- Witness for C8: 40 consecutive updates to a full 30-entry history. -/
theorem trackHistory_bounded_witness :
    ((List.replicate 40 ((1 : ℚ), (1 : ℚ))).foldl pushHistory
        (List.replicate 30 ((0 : ℚ), (0 : ℚ)))).length ≤ 30 ∧
    pushHistory (List.replicate 30 ((0 : ℚ), (0 : ℚ))) ((1 : ℚ), (1 : ℚ)) =
      (List.replicate 30 ((0 : ℚ), (0 : ℚ))).tail ++ [((1 : ℚ), (1 : ℚ))] := by
  have h := trackHistory_bounded (List.replicate 30 ((0 : ℚ), (0 : ℚ)))
    (List.replicate 40 ((1 : ℚ), (1 : ℚ))) (by simp)
  exact ⟨h.1, h.2 (by simp) ((1 : ℚ), (1 : ℚ))⟩

theorem lookupA_updA_self {α β : Type} [DecidableEq α] (k : α) (v : β) :
    ∀ l : List (α × β), lookupA (updA k v l) k = some v := by
  intro l
  induction l with
  | nil => simp [updA, lookupA]
  | cons p rest ih =>
    by_cases hk : p.1 = k
    · simp [updA, hk, lookupA]
    · simp [updA, hk, lookupA, ih]

theorem lookupA_updA_ne {α β : Type} [DecidableEq α] (k k' : α) (v : β)
    (hne : k' ≠ k) : ∀ l : List (α × β), lookupA (updA k v l) k' = lookupA l k' := by
  intro l
  induction l with
  | nil => simp [updA, lookupA, Ne.symm hne]
  | cons p rest ih =>
    by_cases hk : p.1 = k
    · simp only [updA, if_pos hk, lookupA]
      rw [hk]
      simp [Ne.symm hne]
    · simp only [updA, if_neg hk, lookupA]
      by_cases hk' : p.1 = k'
      · simp [hk']
      · simp [hk', ih]

theorem mem_updA_keys {α β : Type} [DecidableEq α] (k : α) (v : β) (a : α) :
    ∀ l : List (α × β), (∃ c, (a, c) ∈ updA k v l) ↔ a = k ∨ ∃ c, (a, c) ∈ l := by
  intro l
  induction l with
  | nil =>
    simp [updA, Prod.ext_iff]
  | cons p rest ih =>
    by_cases hk : p.1 = k
    · subst hk
      constructor
      · rintro ⟨c, hc⟩
        rw [updA, if_pos rfl] at hc
        rcases List.mem_cons.mp hc with hc | hc
        · left
          exact (Prod.ext_iff.mp hc).1
        · right
          exact ⟨c, List.mem_cons_of_mem p hc⟩
      · rintro (ha | ⟨c, hc⟩)
        · subst ha
          exact ⟨v, by rw [updA, if_pos rfl]; exact List.mem_cons_self _ _⟩
        · rcases List.mem_cons.mp hc with hc | hc
          · refine ⟨v, ?_⟩
            rw [updA, if_pos rfl]
            have : a = p.1 := (Prod.ext_iff.mp hc).1
            rw [this]
            exact List.mem_cons_self _ _
          · exact ⟨c, by rw [updA, if_pos rfl]; exact List.mem_cons_of_mem _ hc⟩
    · constructor
      · rintro ⟨c, hc⟩
        rw [updA, if_neg hk] at hc
        rcases List.mem_cons.mp hc with hc | hc
        · right
          exact ⟨c, hc ▸ List.mem_cons_self p rest⟩
        · rcases (ih.mp ⟨c, hc⟩) with ha | ⟨c', hc'⟩
          · exact Or.inl ha
          · exact Or.inr ⟨c', List.mem_cons_of_mem p hc'⟩
      · rintro (ha | ⟨c, hc⟩)
        · obtain ⟨c', hc'⟩ := ih.mpr (Or.inl ha)
          exact ⟨c', by rw [updA, if_neg hk]; exact List.mem_cons_of_mem p hc'⟩
        · rcases List.mem_cons.mp hc with hc | hc
          · exact ⟨c, by rw [updA, if_neg hk, hc]; exact List.mem_cons_self p _⟩
          · obtain ⟨c', hc'⟩ := ih.mpr (Or.inr ⟨c, hc⟩)
            exact ⟨c', by rw [updA, if_neg hk]; exact List.mem_cons_of_mem p hc'⟩

theorem sessOf_updA (st : TrackerState) (sid : String)
    (L : List (ℕ × ℚ × ℚ)) (cnt : ℕ) (s : String) :
    sessOf ⟨updA sid L st.trackers, cnt⟩ s = if s = sid then L else sessOf st s := by
  by_cases hs : s = sid
  · subst hs
    simp [sessOf, lookupA_updA_self]
  · simp [sessOf, hs, lookupA_updA_ne sid s L hs]

theorem scanGo_none {cx cy : ℚ} :
    ∀ (l : List (ℕ × ℚ × ℚ)) (best : Option (ℚ × ℕ)),
      scanGo cx cy best l = none →
      best = none ∧ ∀ p ∈ l, 2500 ≤ distSq cx cy p.2.1 p.2.2 := by
  intro l
  induction l with
  | nil =>
    intro best hb
    cases best with
    | none => exact ⟨rfl, by simp⟩
    | some m => exact Option.noConfusion hb
  | cons p rest ih =>
    intro best hb
    cases best with
    | none =>
      simp only [scanGo] at hb
      by_cases hd : distSq cx cy p.2.1 p.2.2 < 2500
      · rw [if_pos hd] at hb
        exact absurd (ih _ hb).1 (by simp)
      · rw [if_neg hd] at hb
        obtain ⟨-, hrest⟩ := ih _ hb
        refine ⟨rfl, ?_⟩
        intro q hq
        rcases List.mem_cons.mp hq with hq | hq
        · rw [hq]
          exact not_lt.mp hd
        · exact hrest q hq
    | some m =>
      simp only [scanGo] at hb
      by_cases hd : distSq cx cy p.2.1 p.2.2 < m.1 ∧ distSq cx cy p.2.1 p.2.2 < 2500
      · rw [if_pos hd] at hb
        exact absurd (ih _ hb).1 (by simp)
      · rw [if_neg hd] at hb
        exact absurd (ih _ hb).1 (by simp)

theorem scanGo_some {cx cy : ℚ} :
    ∀ (l : List (ℕ × ℚ × ℚ)) (best : Option (ℚ × ℕ)) (m : ℚ × ℕ),
      (∀ b0, best = some b0 → b0.1 < 2500) →
      scanGo cx cy best l = some m →
      m.1 < 2500 ∧
      ((∃ p ∈ l, p.1 = m.2 ∧ distSq cx cy p.2.1 p.2.2 = m.1) ∨ best = some m) ∧
      (∀ p ∈ l, m.1 ≤ distSq cx cy p.2.1 p.2.2) ∧
      (∀ b0, best = some b0 → m.1 ≤ b0.1) := by
  intro l
  induction l with
  | nil =>
    intro best m hbd hs
    cases best with
    | none => exact Option.noConfusion hs
    | some b =>
      rw [scanGo, Option.some.injEq] at hs
      subst hs
      exact ⟨hbd b rfl, Or.inr rfl, by simp, fun b0 h0 => by cases h0; exact le_rfl⟩
  | cons p rest ih =>
    intro best m hbd hs
    cases best with
    | none =>
      simp only [scanGo] at hs
      by_cases hd : distSq cx cy p.2.1 p.2.2 < 2500
      · rw [if_pos hd] at hs
        obtain ⟨h1, h2, h3, h4⟩ := ih _ m
          (by
            intro b0 h0
            cases h0
            exact hd) hs
        refine ⟨h1, ?_, ?_, by simp⟩
        · rcases h2 with ⟨q, hq, hq1, hq2⟩ | heq
          · exact Or.inl ⟨q, List.mem_cons_of_mem p hq, hq1, hq2⟩
          · cases heq
            exact Or.inl ⟨p, List.mem_cons_self p rest, rfl, rfl⟩
        · intro q hq
          rcases List.mem_cons.mp hq with hq | hq
          · rw [hq]
            exact h4 _ rfl
          · exact h3 q hq
      · rw [if_neg hd] at hs
        obtain ⟨h1, h2, h3, h4⟩ := ih _ m (by simp) hs
        refine ⟨h1, ?_, ?_, by simp⟩
        · rcases h2 with ⟨q, hq, hq1, hq2⟩ | heq
          · exact Or.inl ⟨q, List.mem_cons_of_mem p hq, hq1, hq2⟩
          · cases heq
        · intro q hq
          rcases List.mem_cons.mp hq with hq | hq
          · rw [hq]
            exact le_trans (le_of_lt h1) (not_lt.mp hd)
          · exact h3 q hq
    | some b =>
      simp only [scanGo] at hs
      by_cases hd : distSq cx cy p.2.1 p.2.2 < b.1 ∧ distSq cx cy p.2.1 p.2.2 < 2500
      · rw [if_pos hd] at hs
        obtain ⟨h1, h2, h3, h4⟩ := ih _ m
          (by
            intro b0 h0
            cases h0
            exact hd.2) hs
        refine ⟨h1, ?_, ?_, ?_⟩
        · rcases h2 with ⟨q, hq, hq1, hq2⟩ | heq
          · exact Or.inl ⟨q, List.mem_cons_of_mem p hq, hq1, hq2⟩
          · cases heq
            exact Or.inl ⟨p, List.mem_cons_self p rest, rfl, rfl⟩
        · intro q hq
          rcases List.mem_cons.mp hq with hq | hq
          · rw [hq]
            exact h4 _ rfl
          · exact h3 q hq
        · intro b0 h0
          cases h0
          exact le_trans (h4 _ rfl) (le_of_lt hd.1)
      · rw [if_neg hd] at hs
        obtain ⟨h1, h2, h3, h4⟩ := ih _ m hbd hs
        refine ⟨h1, ?_, ?_, h4⟩
        · rcases h2 with ⟨q, hq, hq1, hq2⟩ | heq
          · exact Or.inl ⟨q, List.mem_cons_of_mem p hq, hq1, hq2⟩
          · exact Or.inr heq
        · intro q hq
          rcases List.mem_cons.mp hq with hq | hq
          · rw [hq]
            rcases not_and_or.mp hd with hd1 | hd2
            · exact le_trans (h4 _ rfl) (not_lt.mp hd1)
            · exact le_trans (le_of_lt h1) (not_lt.mp hd2)
          · exact h3 q hq

theorem scanGo_none_of_far {cx cy : ℚ} :
    ∀ (l : List (ℕ × ℚ × ℚ)),
      (∀ p ∈ l, 2500 ≤ distSq cx cy p.2.1 p.2.2) →
      scanGo cx cy none l = none := by
  intro l
  induction l with
  | nil => intro _; rfl
  | cons p rest ih =>
    intro hall
    simp only [scanGo]
    rw [if_neg (not_lt.mpr (hall p (List.mem_cons_self p rest)))]
    exact ih (fun q hq => hall q (List.mem_cons_of_mem p hq))

/-- C6: `_assign_track_id` is a greedy nearest-neighbour match with shared
state.  (a) If some existing track of the session lies strictly within 50 px
(squared distance < 2500) of the new centroid, the returned id is an
existing track id at minimal distance, strictly within 50 px, and its stored
centroid is overwritten with the new one while the lifetime counter is
untouched.  (b) If no track is within 50 px, the id is freshly drawn from
the single lifetime counter, which is incremented.  (c) The counter never
decreases (never reset per session or per frame).  (d) Within one frame,
detections are processed sequentially, each updating the shared state before
the next is matched; concretely, with one track at the origin, two
detections both initially within 50 px of it get distinct ids — the first
processed claims the track in either processing order. -/
theorem centroidTracker_assignment (st : TrackerState) (sid : String) (b : BBoxQ) :
    ((∃ p ∈ sessOf st sid,
        distSq (centerOf b).1 (centerOf b).2 p.2.1 p.2.2 < 2500) →
      ∃ c0, ((assignTrackId st sid b).1, c0) ∈ sessOf st sid ∧
        distSq (centerOf b).1 (centerOf b).2 c0.1 c0.2 < 2500 ∧
        (∀ p ∈ sessOf st sid,
          distSq (centerOf b).1 (centerOf b).2 c0.1 c0.2 ≤
            distSq (centerOf b).1 (centerOf b).2 p.2.1 p.2.2) ∧
        lookupA (sessOf (assignTrackId st sid b).2 sid) (assignTrackId st sid b).1 =
          some (centerOf b) ∧
        (assignTrackId st sid b).2.counter = st.counter) ∧
    ((∀ p ∈ sessOf st sid,
        2500 ≤ distSq (centerOf b).1 (centerOf b).2 p.2.1 p.2.2) →
      (assignTrackId st sid b).1 = st.counter ∧
      (assignTrackId st sid b).2.counter = st.counter + 1 ∧
      lookupA (sessOf (assignTrackId st sid b).2 sid) st.counter =
        some (centerOf b)) ∧
    st.counter ≤ (assignTrackId st sid b).2.counter ∧
    (∀ bs, assignFrame st sid (b :: bs) =
      ((assignTrackId st sid b).1 ::
        (assignFrame (assignTrackId st sid b).2 sid bs).1,
       (assignFrame (assignTrackId st sid b).2 sid bs).2)) ∧
    ((assignFrame c6state "s" [c6b1, c6b2]).1 = [0, 1] ∧
     (assignFrame c6state "s" [c6b2, c6b1]).1 = [0, 1]) := by
  refine ⟨?_, ?_, ?_, ?_, ?_, ?_⟩
  · intro hex
    cases hscan : scanTracks (centerOf b).1 (centerOf b).2 (sessOf st sid) with
    | none =>
      obtain ⟨-, hfar⟩ := scanGo_none _ none hscan
      obtain ⟨p, hp, hpd⟩ := hex
      exact absurd hpd (not_lt.mpr (hfar p hp))
    | some m =>
      obtain ⟨h1, h2, h3, -⟩ := scanGo_some _ none m (by simp) hscan
      rcases h2 with ⟨q, hq, hq1, hq2⟩ | heq
      · refine ⟨q.2, ?_, ?_, ?_, ?_, ?_⟩
        · simp only [assignTrackId, hscan]
          rw [← hq1]
          simpa using hq
        · rw [hq2]
          exact h1
        · intro p hp
          rw [hq2]
          exact h3 p hp
        · simp only [assignTrackId, hscan]
          rw [sessOf_updA st sid _ st.counter sid, if_pos rfl]
          exact lookupA_updA_self m.2 (centerOf b) _
        · simp only [assignTrackId, hscan]
      · exact Option.noConfusion heq
  · intro hfar
    have hscan : scanTracks (centerOf b).1 (centerOf b).2 (sessOf st sid) = none :=
      scanGo_none_of_far _ hfar
    refine ⟨?_, ?_, ?_⟩
    · simp only [assignTrackId, hscan]
    · simp only [assignTrackId, hscan]
    · simp only [assignTrackId, hscan]
      rw [sessOf_updA st sid _ (st.counter + 1) sid, if_pos rfl]
      exact lookupA_updA_self st.counter (centerOf b) _
  · cases hscan : scanTracks (centerOf b).1 (centerOf b).2 (sessOf st sid) with
    | none => simp [assignTrackId, hscan]
    | some m => simp [assignTrackId, hscan]
  · intro bs
    rfl
  · norm_num [assignFrame, assignTrackId, scanTracks, scanGo, sessOf, lookupA,
      updA, distSq, centerOf, c6state, c6b1, c6b2]
  · norm_num [assignFrame, assignTrackId, scanTracks, scanGo, sessOf, lookupA,
      updA, distSq, centerOf, c6state, c6b1, c6b2]

/-- Witness for C6 at the concrete scenario: one track at the origin, a
detection centred at (30, 0). -/
theorem centroidTracker_assignment_witness :
    ∃ c0, ((assignTrackId c6state "s" c6b1).1, c0) ∈ sessOf c6state "s" ∧
      distSq (centerOf c6b1).1 (centerOf c6b1).2 c0.1 c0.2 < 2500 ∧
      (∀ p ∈ sessOf c6state "s",
        distSq (centerOf c6b1).1 (centerOf c6b1).2 c0.1 c0.2 ≤
          distSq (centerOf c6b1).1 (centerOf c6b1).2 p.2.1 p.2.2) ∧
      lookupA (sessOf (assignTrackId c6state "s" c6b1).2 "s")
        (assignTrackId c6state "s" c6b1).1 = some (centerOf c6b1) ∧
      (assignTrackId c6state "s" c6b1).2.counter = c6state.counter :=
  (centroidTracker_assignment c6state "s" c6b1).1
    ⟨(0, (0, 0)), by norm_num [sessOf, lookupA, c6state],
      by norm_num [distSq, centerOf, c6b1]⟩

theorem sessIds_match_state (st : TrackerState) (sid : String) (cen : ℚ × ℚ)
    (m2 : ℕ) (hmem : sessIds st sid m2) (cnt : ℕ) (s : String) (t : ℕ) :
    sessIds ⟨updA sid (updA m2 cen (sessOf st sid)) st.trackers, cnt⟩ s t ↔
      sessIds st s t := by
  unfold sessIds
  rw [show sessOf ⟨updA sid (updA m2 cen (sessOf st sid)) st.trackers, cnt⟩ s =
      if s = sid then updA m2 cen (sessOf st sid) else sessOf st s from
    sessOf_updA st sid _ cnt s]
  by_cases hs : s = sid
  · rw [if_pos hs, hs]
    rw [mem_updA_keys m2 cen t (sessOf st sid)]
    constructor
    · rintro (ht | h)
      · rw [ht]
        exact hmem
      · exact h
    · exact Or.inr
  · rw [if_neg hs]

theorem sessIds_fresh_state (st : TrackerState) (sid : String) (cen : ℚ × ℚ)
    (cnt : ℕ) (s : String) (t : ℕ) :
    sessIds ⟨updA sid (updA st.counter cen (sessOf st sid)) st.trackers, cnt⟩ s t ↔
      (s = sid ∧ (t = st.counter ∨ sessIds st sid t)) ∨
      (s ≠ sid ∧ sessIds st s t) := by
  unfold sessIds
  rw [show sessOf ⟨updA sid (updA st.counter cen (sessOf st sid)) st.trackers, cnt⟩ s =
      if s = sid then updA st.counter cen (sessOf st sid) else sessOf st s from
    sessOf_updA st sid _ cnt s]
  by_cases hs : s = sid
  · rw [if_pos hs]
    rw [mem_updA_keys st.counter cen t (sessOf st sid)]
    constructor
    · rintro (ht | h)
      · exact Or.inl ⟨hs, Or.inl ht⟩
      · exact Or.inl ⟨hs, Or.inr h⟩
    · rintro (⟨-, ht | h⟩ | ⟨hne, -⟩)
      · exact Or.inl ht
      · exact Or.inr h
      · exact absurd hs hne
  · rw [if_neg hs]
    constructor
    · intro h
      exact Or.inr ⟨hs, h⟩
    · rintro (⟨heq, -⟩ | ⟨-, h⟩)
      · exact absurd heq hs
      · exact h

theorem assignTrackId_inv (st : TrackerState) (sid : String) (b : BBoxQ)
    (hinv : InvT st) :
    InvT (assignTrackId st sid b).2 ∧
    sessIds (assignTrackId st sid b).2 sid (assignTrackId st sid b).1 ∧
    (∀ s t, sessIds st s t → sessIds (assignTrackId st sid b).2 s t) := by
  cases hscan : scanTracks (centerOf b).1 (centerOf b).2 (sessOf st sid) with
  | some m =>
    obtain ⟨h1, h2, h3, -⟩ := scanGo_some _ none m (by simp) hscan
    have hm2 : sessIds st sid m.2 := by
      rcases h2 with ⟨q, hq, hq1, -⟩ | heq
      · exact ⟨q.2, by rw [← hq1]; simpa using hq⟩
      · exact Option.noConfusion heq
    simp only [assignTrackId, hscan]
    refine ⟨⟨?_, ?_⟩, ?_, ?_⟩
    · intro s t hst
      rw [sessIds_match_state st sid _ m.2 hm2 st.counter s t] at hst
      exact hinv.1 s t hst
    · intro s1 s2 t hne hs1 hs2
      rw [sessIds_match_state st sid _ m.2 hm2 st.counter _ t] at hs1 hs2
      exact hinv.2 s1 s2 t hne hs1 hs2
    · rw [sessIds_match_state st sid _ m.2 hm2 st.counter sid m.2]
      exact hm2
    · intro s t hst
      rw [sessIds_match_state st sid _ m.2 hm2 st.counter s t]
      exact hst
  | none =>
    simp only [assignTrackId, hscan]
    refine ⟨⟨?_, ?_⟩, ?_, ?_⟩
    · intro s t hst
      rw [sessIds_fresh_state st sid _ (st.counter + 1) s t] at hst
      rcases hst with ⟨-, ht | h⟩ | ⟨-, h⟩
      · rw [ht]
        exact Nat.lt_succ_self st.counter
      · exact Nat.lt_succ_of_lt (hinv.1 sid t h)
      · exact Nat.lt_succ_of_lt (hinv.1 s t h)
    · intro s1 s2 t hne hs1 hs2
      rw [sessIds_fresh_state st sid _ (st.counter + 1) _ t] at hs1 hs2
      rcases hs1 with ⟨he1, ht1 | h1⟩ | ⟨hne1, h1⟩ <;>
        rcases hs2 with ⟨he2, ht2 | h2⟩ | ⟨hne2, h2⟩
      · exact hne (he1.trans he2.symm)
      · exact hne (he1.trans he2.symm)
      · exact absurd (hinv.1 s2 t h2) (by omega)
      · exact hne (he1.trans he2.symm)
      · exact hne (he1.trans he2.symm)
      · exact hinv.2 s1 s2 t hne (he1 ▸ h1) h2
      · exact absurd (hinv.1 s1 t h1) (by omega)
      · exact hinv.2 s1 s2 t hne h1 (he2 ▸ h2)
      · exact hinv.2 s1 s2 t hne h1 h2
    · rw [sessIds_fresh_state st sid _ (st.counter + 1) sid st.counter]
      exact Or.inl ⟨rfl, Or.inl rfl⟩
    · intro s t hst
      rw [sessIds_fresh_state st sid _ (st.counter + 1) s t]
      by_cases hs : s = sid
      · exact Or.inl ⟨hs, Or.inr (hs ▸ hst)⟩
      · exact Or.inr ⟨hs, hst⟩

theorem runFrame_spec (sid : String) :
    ∀ (bs : List BBoxQ) (fs : FullState), InvT fs.ts →
      InvT (runFrame fs sid bs).1.ts ∧
      (∀ e ∈ (runFrame fs sid bs).2, e.1 = sid ∧
        sessIds (runFrame fs sid bs).1.ts sid e.2) ∧
      (∀ s t, sessIds fs.ts s t → sessIds (runFrame fs sid bs).1.ts s t) := by
  intro bs
  induction bs with
  | nil =>
    intro fs hinv
    exact ⟨hinv, by simp [runFrame], fun s t hst => hst⟩
  | cons b rest ih =>
    intro fs hinv
    obtain ⟨ha1, ha2, ha3⟩ := assignTrackId_inv fs.ts sid b hinv
    obtain ⟨ih1, ih2, ih3⟩ := ih (trackStep fs sid b).2 ha1
    refine ⟨?_, ?_, ?_⟩
    · exact ih1
    · intro e he
      simp only [runFrame, List.mem_cons] at he
      rcases he with he | he
      · rw [he]
        exact ⟨rfl, ih3 sid _ ha2⟩
      · exact ih2 e he
    · intro s t hst
      exact ih3 s t (ha3 s t hst)

theorem runFrames_spec :
    ∀ (events : List (String × List BBoxQ)) (fs : FullState), InvT fs.ts →
      InvT (runFrames fs events).1.ts ∧
      (∀ e ∈ (runFrames fs events).2,
        sessIds (runFrames fs events).1.ts e.1 e.2) ∧
      (∀ s t, sessIds fs.ts s t → sessIds (runFrames fs events).1.ts s t) := by
  intro events
  induction events with
  | nil =>
    intro fs hinv
    exact ⟨hinv, by simp [runFrames], fun s t hst => hst⟩
  | cons ev rest ih =>
    intro fs hinv
    obtain ⟨h1, h2, h3⟩ := runFrame_spec ev.1 ev.2 fs hinv
    obtain ⟨ih1, ih2, ih3⟩ := ih (runFrame fs ev.1 ev.2).1 h1
    refine ⟨?_, ?_, ?_⟩
    · exact ih1
    · intro e he
      simp only [runFrames, List.mem_append] at he
      rcases he with he | he
      · obtain ⟨heq, hmem⟩ := h2 e he
        rw [heq]
        exact ih3 ev.1 e.2 hmem
      · exact ih2 e he
    · intro s t hst
      exact ih3 s t (h3 s t hst)

theorem initFullState_inv : InvT initFullState.ts := by
  constructor
  · rintro sid tid ⟨c, hc⟩
    simp [sessOf, lookupA, initFullState] at hc
  · rintro s1 s2 tid hne ⟨c1, hc1⟩ -
    simp [sessOf, lookupA, initFullState] at hc1

/-- C10: because all sessions draw fresh ids from the tracker's one lifetime
counter, (a) after any sequence of frames from any sessions, the global
history-write log never pairs the same track id with two different sessions
(the history map never mixes sessions under one id), since the id sets of
distinct sessions stay disjoint; and (b) under the tracker invariants, a
freshly allocated id (the no-match branch) equals the counter and is
distinct from every id held by any session, i.e. from every id allocated
before it. -/
theorem trackerIds_disjoint :
    (∀ events : List (String × List BBoxQ),
      (∀ s1 s2 tid, s1 ≠ s2 →
        sessIds (runFrames initFullState events).1.ts s1 tid →
        sessIds (runFrames initFullState events).1.ts s2 tid → False) ∧
      (∀ e1 ∈ (runFrames initFullState events).2,
        ∀ e2 ∈ (runFrames initFullState events).2,
          e1.2 = e2.2 → e1.1 = e2.1)) ∧
    (∀ (st : TrackerState) (sid : String) (b : BBoxQ) (s : String), InvT st →
      (∀ p ∈ sessOf st sid,
        2500 ≤ distSq (centerOf b).1 (centerOf b).2 p.2.1 p.2.2) →
      (assignTrackId st sid b).1 = st.counter ∧
      ¬ sessIds st s (assignTrackId st sid b).1) := by
  constructor
  · intro events
    obtain ⟨hinv, hlog, -⟩ := runFrames_spec events initFullState initFullState_inv
    refine ⟨fun s1 s2 tid hne hx1 hx2 => hinv.2 s1 s2 tid hne hx1 hx2, ?_⟩
    intro e1 he1 e2 he2 heq
    by_contra hne
    exact hinv.2 e1.1 e2.1 e1.2 hne (hlog e1 he1) (heq ▸ hlog e2 he2)
  · intro st sid b s hinv hfar
    have hscan : scanTracks (centerOf b).1 (centerOf b).2 (sessOf st sid) = none :=
      scanGo_none_of_far _ hfar
    have hid : (assignTrackId st sid b).1 = st.counter := by
      simp only [assignTrackId, hscan]
    refine ⟨hid, ?_⟩
    rw [hid]
    intro hcontra
    exact lt_irrefl st.counter (hinv.1 s st.counter hcontra)

theorem c6state_inv : InvT c6state := by
  constructor
  · rintro sid tid ⟨c, hc⟩
    by_cases hs : ("s" : String) = sid
    · subst hs
      simp [sessOf, lookupA, c6state] at hc
      rw [hc.1]
      norm_num [c6state]
    · simp [sessOf, lookupA, c6state, hs] at hc
  · rintro s1 s2 tid hne ⟨c1, hc1⟩ ⟨c2, hc2⟩
    by_cases h1 : ("s" : String) = s1
    · by_cases h2 : ("s" : String) = s2
      · exact hne (h1 ▸ h2 ▸ rfl)
      · simp [sessOf, lookupA, c6state, h2] at hc2
    · simp [sessOf, lookupA, c6state, h1] at hc1

/-- Witness for C10's allocation part at a concrete state: session `"t"` is
empty, so the detection spawns the fresh id `1`, which no session holds. -/
theorem trackerIds_disjoint_witness :
    (assignTrackId c6state "t" c6b1).1 = c6state.counter ∧
    ¬ sessIds c6state "s" (assignTrackId c6state "t" c6b1).1 :=
  trackerIds_disjoint.2 c6state "t" c6b1 "s" c6state_inv
    (by
      intro p hp
      simp [sessOf, lookupA, c6state] at hp)

/-! ## Theorems about the WebSocket server -/

theorem buildResponse_error_none (r : ProcResult) (sid : String) :
    lookupA (buildResponse r sid) "error" = none := rfl

theorem buildResponse_type (r : ProcResult) (sid : String) :
    lookupA (buildResponse r sid) "type" = some (FieldVal.str "detection_result") := rfl

theorem buildResponse_dets (r : ProcResult) (sid : String) :
    lookupA (buildResponse r sid) "detections" =
      some (FieldVal.dets (r.detections.getD [])) := rfl

/-- C2 counterexample: on a boundary timeout for session `"s"`, the handler
sends the `detection_result` message with an empty detections list and stays
active, but the message carries *no* `error` field — the explanatory text
computed by `process_frame` is dropped when the response dict is built. -/
theorem resultMessage_error_claim_false :
    (connStep "s" ConnPhase.active (InEvent.frameMsg "x" Boundary.timeout)).2 =
      [buildResponse (process_frame Boundary.timeout) "s"] ∧
    lookupA (buildResponse (process_frame Boundary.timeout) "s") "detections" =
      some (FieldVal.dets []) ∧
    lookupA (buildResponse (process_frame Boundary.timeout) "s") "error" = none ∧
    (process_frame Boundary.timeout).errDesc = some "Processing timeout" ∧
    (connStep "s" ConnPhase.active (InEvent.frameMsg "x" Boundary.timeout)).1 =
      ConnPhase.active := by
  refine ⟨?_, ?_, ?_, ?_, ?_⟩ <;> rfl

/-- C2 (amended): on any failing boundary interaction (timeout, connection
failure, non-success status) with a non-empty frame payload, the connection
stays ACTIVE and exactly one `detection_result` message is sent, with an
empty detections list; the explanatory error text exists in the
`process_frame` result but is *not* included in the message (there is no
`error` field); and a frame message with empty `data` yields no response at
all. -/
theorem resultMessage_on_failure (sid frameData : String) (b : Boundary)
    (hfd : frameData ≠ "") (hfail : boundaryFailed b) :
    (connStep sid ConnPhase.active (InEvent.frameMsg frameData b)).1 =
      ConnPhase.active ∧
    (connStep sid ConnPhase.active (InEvent.frameMsg frameData b)).2 =
      [buildResponse (process_frame b) sid] ∧
    lookupA (buildResponse (process_frame b) sid) "detections" =
      some (FieldVal.dets []) ∧
    lookupA (buildResponse (process_frame b) sid) "type" =
      some (FieldVal.str "detection_result") ∧
    lookupA (buildResponse (process_frame b) sid) "error" = none ∧
    (∃ e, (process_frame b).errDesc = some e) ∧
    (∀ b2, connStep sid ConnPhase.active (InEvent.frameMsg "" b2) =
      (ConnPhase.active, [])) := by
  have hsend : handleFrameMsg frameData sid b = [buildResponse (process_frame b) sid] := by
    unfold handleFrameMsg
    rw [if_neg hfd]
  have hempty : ∀ b2, connStep sid ConnPhase.active (InEvent.frameMsg "" b2) =
      (ConnPhase.active, []) := by
    intro b2
    simp [connStep, handleFrameMsg]
  cases b with
  | ok r => exact hfail.elim
  | httpError s =>
    exact ⟨rfl, hsend, buildResponse_dets _ _, buildResponse_type _ _,
      buildResponse_error_none _ _, ⟨_, rfl⟩, hempty⟩
  | timeout =>
    exact ⟨rfl, hsend, buildResponse_dets _ _, buildResponse_type _ _,
      buildResponse_error_none _ _, ⟨_, rfl⟩, hempty⟩
  | connError m =>
    exact ⟨rfl, hsend, buildResponse_dets _ _, buildResponse_type _ _,
      buildResponse_error_none _ _, ⟨_, rfl⟩, hempty⟩

/-- Witness for C2's amended theorem at a concrete timeout. -/
theorem resultMessage_on_failure_witness :
    (connStep "s" ConnPhase.active (InEvent.frameMsg "x" Boundary.timeout)).1 =
      ConnPhase.active ∧
    lookupA (buildResponse (process_frame Boundary.timeout) "s") "error" = none :=
  ⟨(resultMessage_on_failure "s" "x" Boundary.timeout (by decide) trivial).1,
   (resultMessage_on_failure "s" "x" Boundary.timeout (by decide) trivial).2.2.2.2.1⟩

/-- C4 counterexample: after the disconnect path runs for session `"s"`, the
session is deregistered (connection and session entry removed), but the
session's rate-limiter window survives untouched — it is *not* cleared,
whereas an actual `reset_session` call would have deleted it. -/
theorem disconnect_reset_claim_false :
    lookupA (onDisconnect c4state 1 "s").sessionData "s" = none ∧
    (1 : ℕ) ∉ (onDisconnect c4state 1 "s").activeConns ∧
    lookupA (onDisconnect c4state 1 "s").rateRequests "s" = some [0] ∧
    ¬ lookupA (onDisconnect c4state 1 "s").rateRequests "s" = none ∧
    lookupA (reset_session (onDisconnect c4state 1 "s").rateRequests "s") "s" =
      none := by
  refine ⟨rfl, ?_, rfl, fun hc => Option.noConfusion hc, rfl⟩
  intro hmem
  simp [onDisconnect, unregister, c4state] at hmem

/-- C4 (amended): the disconnect path deregisters the session — the
websocket is discarded and the session entry deleted — but the RateBudget
window is left exactly as it was: `rateRequests` is unchanged because
`RateLimiter.reset_session` is never invoked. -/
theorem disconnect_deregisters_only (st : ServerState) (ws : ℕ) (sid : String) :
    (onDisconnect st ws sid).sessionData = removeA sid st.sessionData ∧
    ws ∉ (onDisconnect st ws sid).activeConns ∧
    (onDisconnect st ws sid).rateRequests = st.rateRequests := by
  refine ⟨rfl, ?_, rfl⟩
  intro hmem
  simp [onDisconnect, unregister] at hmem
